import Mathlib

/-!
# Verification of the Korean AI Tutor audio-call client

Shallow embedding of the repository's core logic:

* `types.ts` (`src/unnamed/part_000`): `CallStatus`, `TranscriptMessage`.
* `CallPage.tsx` (`src/unnamed/part_001`): the session lifecycle controller
  (`startCall`, `endCall`, `cleanup`), the live-session callbacks
  (`onmessage`, `onerror`, `onclose`), the capture pipeline
  (`onaudioprocess`), and the inline playback scheduler
  (`nextStartTimeRef` / `audioSources`).
* `App.tsx`, `SubscriptionPage.tsx`: the subscription gate.
* `utils/audio` is imported by `CallPage.tsx` but absent from the sources;
  its PCM codec is modelled from the spec where noted.

Times and sample values are rationals; the single-threaded browser event
loop is modelled by applying handler functions to an explicit state.
-/

namespace KoreanTutor

/-- `CallStatus` from `types.ts`. -/
inductive CallStatus where
  | idle
  | connecting
  | active
  | error
  | ended
deriving DecidableEq, Repr

/-- Speaker tag of a transcript entry (`'user' | 'ai' | 'system'`). -/
inductive Speaker where
  | user
  | ai
  | system
deriving DecidableEq, Repr

/-- `TranscriptMessage` from `types.ts`. -/
structure TranscriptMessage where
  speaker : Speaker
  text : String
deriving DecidableEq, Repr

/-- The remote `LiveSession` handle.  The only behaviour the client code
depends on is that `close()` may throw (caught in `endCall`); we record
that possibility as a flag. -/
structure Session where
  closeFails : Bool
deriving DecidableEq, Repr

/-- The playback scheduler's mutable cells in `CallPage.tsx`:
`nextStartTimeRef` (the cursor on the output clock) and `audioSources`
(the set of live `AudioBufferSourceNode` handles, in insertion order). -/
structure SchedulerState where
  nextStartTime : ℚ
  audioSources : List ℕ
deriving DecidableEq, Repr

/-- The inline scheduling code of the `onmessage` audio branch
(`CallPage.tsx` lines 175-193):

```
nextStartTimeRef.current = Math.max(nextStartTimeRef.current, currentTime);
source.start(nextStartTimeRef.current);
nextStartTimeRef.current += audioBuffer.duration;
audioSources.current.add(source);
```

Returns the new scheduler state and the start time handed to
`source.start`.  `srcId` identifies the freshly created source node. -/
def schedulePlayback (now dur : ℚ) (srcId : ℕ) (s : SchedulerState) :
    SchedulerState × ℚ :=
  let start := max s.nextStartTime now
  (⟨start + dur, s.audioSources ++ [srcId]⟩, start)

/-- The `interrupted` branch of `onmessage` (`CallPage.tsx` lines 195-201):
stop every source in `audioSources`, remove it from the set, and reset
`nextStartTimeRef` to 0.  Returns the new state and the list of handles
that received a `stop()` call. -/
def interrupt (s : SchedulerState) : SchedulerState × List ℕ :=
  (⟨0, []⟩, s.audioSources)

/-- The `ended` event listener of a source node: it removes itself from
`audioSources` (`audioSources.current.delete(source)`). -/
def sourceEnded (srcId : ℕ) (s : SchedulerState) : SchedulerState :=
  ⟨s.nextStartTime, s.audioSources.filter (· ≠ srcId)⟩

/-- Scheduling a list of fragments in arrival order.  Each fragment is a
pair `(now, dur)`: the output clock's current time when the fragment
arrives and the decoded buffer's duration.  Returns the final scheduler
state and the start times in order. -/
def scheduleRun (frags : List (ℚ × ℚ)) (s : SchedulerState) :
    SchedulerState × List ℚ :=
  match frags with
  | [] => (s, [])
  | (now, dur) :: rest =>
      let step := schedulePlayback now dur s.audioSources.length s
      let tail := scheduleRun rest step.1
      (tail.1, step.2 :: tail.2)

/-- Sum of the durations of a fragment list. -/
def sumDur (frags : List (ℚ × ℚ)) : ℚ :=
  (frags.map Prod.snd).sum

theorem sumDur_nil : sumDur [] = 0 := rfl

theorem sumDur_cons (p : ℚ × ℚ) (l : List (ℚ × ℚ)) :
    sumDur (p :: l) = p.2 + sumDur l := by
  simp [sumDur]

theorem sumDur_append (l₁ l₂ : List (ℚ × ℚ)) :
    sumDur (l₁ ++ l₂) = sumDur l₁ + sumDur l₂ := by
  simp [sumDur]

theorem scheduleRun_length (frags : List (ℚ × ℚ)) (s : SchedulerState) :
    (scheduleRun frags s).2.length = frags.length := by
  induction frags generalizing s with
  | nil => rfl
  | cons p rest ih =>
      obtain ⟨now, dur⟩ := p
      simp [scheduleRun, ih]

/-- When each fragment arrives with the output clock not ahead of the
cursor, every start time is exactly the cursor, and the cursor advances
by each duration: starts from cursor `c` are `c + Σ d₁..d_{i-1}`. -/
theorem scheduleRun_starts (frags : List (ℚ × ℚ)) (c : ℚ) (src : List ℕ)
    (h : ∀ i, i < frags.length →
      (frags.getD i (0, 0)).1 ≤ c + sumDur (frags.take i)) :
    ∀ i, i < frags.length →
      (scheduleRun frags ⟨c, src⟩).2.getD i 0 =
        c + sumDur (frags.take i) := by
  induction frags generalizing c src with
  | nil => intro i hi; simp at hi
  | cons p rest ih =>
      obtain ⟨now, dur⟩ := p
      have h0 : now ≤ c := by
        have := h 0 (by simp)
        simpa [sumDur] using this
      have hmax : max c now = c := max_eq_left h0
      intro i hi
      match i with
      | 0 =>
          simp [scheduleRun, schedulePlayback, sumDur, hmax]
      | Nat.succ j =>
          have hrest : ∀ k, k < rest.length →
              (rest.getD k (0, 0)).1 ≤ (c + dur) + sumDur (rest.take k) := by
            intro k hk
            have := h (k + 1) (by simpa using Nat.succ_lt_succ hk)
            simpa [sumDur_cons, add_assoc] using this
          have hj := ih (c + dur) (src ++ [src.length]) hrest j
            (Nat.lt_of_succ_lt_succ (by simpa using hi))
          simp only [scheduleRun, schedulePlayback, hmax, List.getD_cons_succ]
          rw [hj]
          simp [sumDur_cons, add_assoc]

theorem sumDur_take_succ (frags : List (ℚ × ℚ)) (i : ℕ) (hi : i < frags.length) :
    sumDur (frags.take (i + 1)) =
      sumDur (frags.take i) + (frags.getD i (0, 0)).2 := by
  rw [List.take_succ, sumDur_append]
  simp [List.getElem?_eq_getElem hi, sumDur, List.getD_eq_getElem?_getD]

/-- C1: a fragment scheduled with no intervening interruption starts at
`max(outputClock.now(), cursor)` and the cursor then advances to that
start time plus the fragment's duration; consequently, for fragments
scheduled consecutively from a fresh scheduler when the output clock is
never ahead of the cumulative duration sum, fragment `i` starts at
`d₁ + ... + d_{i-1}`, exactly at fragment `i-1`'s end (no overlap), in
arrival order. -/
theorem schedulePlayback_gapless (now dur : ℚ) (srcId : ℕ) (s : SchedulerState)
    (frags : List (ℚ × ℚ))
    (hclock : ∀ i, i < frags.length →
      (frags.getD i (0, 0)).1 ≤ sumDur (frags.take i)) :
    (schedulePlayback now dur srcId s).2 = max now s.nextStartTime ∧
    (schedulePlayback now dur srcId s).1.nextStartTime =
      (schedulePlayback now dur srcId s).2 + dur ∧
    (∀ i, i < frags.length →
      (scheduleRun frags ⟨0, []⟩).2.getD i 0 = sumDur (frags.take i)) ∧
    (∀ i, i + 1 < frags.length →
      (scheduleRun frags ⟨0, []⟩).2.getD (i + 1) 0 =
        (scheduleRun frags ⟨0, []⟩).2.getD i 0 + (frags.getD i (0, 0)).2) := by
  have hstarts := scheduleRun_starts frags 0 []
    (by intro i hi; simpa using hclock i hi)
  refine ⟨by simp [schedulePlayback, max_comm], rfl, ?_, ?_⟩
  · intro i hi
    simpa using hstarts i hi
  · intro i hi
    have h1 := hstarts (i + 1) hi
    have h2 := hstarts i (Nat.lt_of_succ_lt hi)
    rw [h1, h2, sumDur_take_succ frags i (Nat.lt_of_succ_lt hi)]
    ring

/-- C1 witness: two fragments of duration 1 arriving at clock time 0;
the second starts at 1, the first fragment's end. -/
theorem schedulePlayback_gapless_witness :
    (∀ i, i < ([((0 : ℚ), (1 : ℚ)), (0, 1)]).length →
      (([((0 : ℚ), (1 : ℚ)), (0, 1)]).getD i (0, 0)).1 ≤
        sumDur (([((0 : ℚ), (1 : ℚ)), (0, 1)]).take i)) ∧
    (scheduleRun [((0 : ℚ), (1 : ℚ)), (0, 1)] ⟨0, []⟩).2.getD 1 0 =
      sumDur (([((0 : ℚ), (1 : ℚ)), (0, 1)]).take 1) := by
  have hyp : ∀ i, i < ([((0 : ℚ), (1 : ℚ)), (0, 1)]).length →
      (([((0 : ℚ), (1 : ℚ)), (0, 1)]).getD i (0, 0)).1 ≤
        sumDur (([((0 : ℚ), (1 : ℚ)), (0, 1)]).take i) := by
    intro i hi
    simp only [List.length_cons, List.length_nil] at hi
    interval_cases i <;> simp [sumDur]
  exact ⟨hyp,
    (schedulePlayback_gapless 0 0 0 ⟨0, []⟩ _ hyp).2.2.1 1 (by simp)⟩

/-- C2: handling the `interrupted` signal force-stops every handle that
was in `audioSources`, leaves the set empty, resets the cursor to 0, and
the next scheduled fragment then starts at `max(clockNow, 0)`. -/
theorem interrupt_clears_state (s : SchedulerState) (now dur : ℚ) (srcId : ℕ) :
    (interrupt s).2 = s.audioSources ∧
    (interrupt s).1.audioSources = [] ∧
    (interrupt s).1.nextStartTime = 0 ∧
    (schedulePlayback now dur srcId (interrupt s).1).2 = max now 0 := by
  refine ⟨rfl, rfl, rfl, ?_⟩
  simp [schedulePlayback, interrupt, max_comm]

/-! ## PCM codec

`CallPage.tsx` imports `decode`, `decodeAudioData` and `createPcmBlob`
from `utils/audio`, which is not among the repository's source files, so
the codec below is modelled from the spec (§4.1). -/

/-- Modelled from the spec: the clamp step of `createPcmBlob`
(`utils/audio`, absent from src): restrict a sample to `[-1, 1]`. -/
def clampSample (s : ℚ) : ℚ := max (-1) (min 1 s)

/-- Modelled from the spec: `createPcmBlob`'s per-sample quantization
(`utils/audio`, absent from src): `round(clamp(s,-1,1) * 32767)`,
rounding to the nearest integer. -/
def encodeSample (s : ℚ) : ℤ := ⌊clampSample s * 32767 + 1 / 2⌋

/-- Modelled from the spec: serialize one 16-bit signed integer as two
little-endian bytes (two's complement). -/
def toLEBytes (v : ℤ) : List ℕ :=
  [(v % 65536).toNat % 256, (v % 65536).toNat / 256]

/-- Modelled from the spec: `createPcmBlob`'s byte stream — each sample
quantized and emitted little-endian, concatenated. -/
def encodePcm (l : List ℚ) : List ℕ :=
  l.foldr (fun s acc => toLEBytes (encodeSample s) ++ acc) []

/-- Modelled from the spec: `decodeAudioData`'s per-sample conversion
(`utils/audio`, absent from src): divide the 16-bit value by 32768. -/
def decodeSample (v : ℤ) : ℚ := (v : ℚ) / 32768

/-- Modelled from the spec: reassemble little-endian byte pairs into
signed 16-bit integers, truncating a trailing incomplete sample. -/
def bytesToInt16s : List ℕ → List ℤ
  | lo :: hi :: rest =>
      (if lo + 256 * hi < 32768 then ((lo + 256 * hi : ℕ) : ℤ)
       else ((lo + 256 * hi : ℕ) : ℤ) - 65536) :: bytesToInt16s rest
  | _ => []

/-- Modelled from the spec: `decodeAudioData` on a raw byte stream —
interpret as little-endian 16-bit PCM and normalize by 32768. -/
def decodePcmBytes (bs : List ℕ) : List ℚ :=
  (bytesToInt16s bs).map decodeSample

theorem clampSample_eq_of_mem (s : ℚ) (h1 : -1 ≤ s) (h2 : s ≤ 1) :
    clampSample s = s := by
  unfold clampSample
  rw [min_eq_right h2, max_eq_right h1]

theorem clampSample_bounds (s : ℚ) :
    -1 ≤ clampSample s ∧ clampSample s ≤ 1 := by
  unfold clampSample
  constructor
  · exact le_max_left _ _
  · exact max_le (by norm_num) (min_le_left _ _)

theorem encodeSample_bounds (s : ℚ) :
    -32768 ≤ encodeSample s ∧ encodeSample s < 32768 := by
  obtain ⟨h1, h2⟩ := clampSample_bounds s
  constructor
  · rw [encodeSample, Int.le_floor]
    push_cast
    nlinarith
  · rw [encodeSample, Int.floor_lt]
    push_cast
    nlinarith

theorem bytesToInt16s_toLEBytes (v : ℤ) (h1 : -32768 ≤ v) (h2 : v < 32768)
    (rest : List ℕ) :
    bytesToInt16s (toLEBytes v ++ rest) = v :: bytesToInt16s rest := by
  simp only [toLEBytes, List.cons_append, List.nil_append, bytesToInt16s]
  congr 1
  split <;> omega

theorem decodePcmBytes_encodePcm (l : List ℚ) :
    decodePcmBytes (encodePcm l) =
      l.map (fun s => decodeSample (encodeSample s)) := by
  induction l with
  | nil => rfl
  | cons s rest ih =>
      obtain ⟨hb1, hb2⟩ := encodeSample_bounds s
      simp only [encodePcm, List.foldr_cons, List.map_cons]
      rw [show (List.foldr (fun s acc => toLEBytes (encodeSample s) ++ acc)
        [] rest) = encodePcm rest from rfl]
      unfold decodePcmBytes
      rw [bytesToInt16s_toLEBytes (encodeSample s) hb1 hb2 (encodePcm rest)]
      simp only [List.map_cons]
      rw [show (bytesToInt16s (encodePcm rest)).map decodeSample =
        decodePcmBytes (encodePcm rest) from rfl, ih]

theorem roundtrip_sample_close (s : ℚ) (h1 : -1 ≤ s) (h2 : s ≤ 1) :
    |decodeSample (encodeSample s) - s| ≤ 3 / 65536 := by
  have hc := clampSample_eq_of_mem s h1 h2
  have hf1 : ((encodeSample s : ℤ) : ℚ) ≤ s * 32767 + 1 / 2 := by
    rw [encodeSample, hc]
    exact Int.floor_le _
  have hf2 : s * 32767 + 1 / 2 < ((encodeSample s : ℤ) : ℚ) + 1 := by
    rw [encodeSample, hc]
    exact Int.lt_floor_add_one _
  rw [decodeSample, abs_le]
  constructor <;> [linarith; linarith]

/-- C3 (amended): encoding samples in `[-1, 1]` to little-endian 16-bit
PCM and decoding back (divide by 32768) reproduces each sample within
quantization error at most `3/65536` (the spec's `1/32767` bound is too
tight; see the counterexample). -/
theorem pcm_roundtrip_error_le (l : List ℚ)
    (hl : ∀ s ∈ l, -1 ≤ s ∧ s ≤ 1) :
    (decodePcmBytes (encodePcm l)).length = l.length ∧
    ∀ i, i < l.length →
      |(decodePcmBytes (encodePcm l)).getD i 0 - l.getD i 0| ≤ 3 / 65536 := by
  rw [decodePcmBytes_encodePcm]
  refine ⟨by simp, ?_⟩
  intro i hi
  rw [List.getD_eq_getElem _ _ (by simpa using hi),
    List.getD_eq_getElem _ _ hi, List.getElem_map]
  obtain ⟨hm1, hm2⟩ := hl l[i] (List.getElem_mem hi)
  exact roundtrip_sample_close _ hm1 hm2

/-- C3 witness: the singleton sample `1/2` round-trips within `3/65536`. -/
theorem pcm_roundtrip_error_le_witness :
    (∀ s ∈ [(1 : ℚ)/2], -1 ≤ s ∧ s ≤ 1) ∧
    ∀ i, i < [(1 : ℚ)/2].length →
      |(decodePcmBytes (encodePcm [(1 : ℚ)/2])).getD i 0 -
        [(1 : ℚ)/2].getD i 0| ≤ 3 / 65536 := by
  have hyp : ∀ s ∈ [(1 : ℚ)/2], -1 ≤ s ∧ s ≤ 1 := by
    intro s hs
    simp only [List.mem_singleton] at hs
    subst hs
    norm_num
  exact ⟨hyp, (pcm_roundtrip_error_le [(1 : ℚ)/2] hyp).2⟩

/-- C3 counterexample: for the float32-representable sample
`98305/131072 ≈ 0.7500076`, the round-trip gives `24575/32768` with
error `5/131072 ≈ 3.8e-5`, which exceeds the claimed bound
`1/32767 ≈ 3.05e-5`. -/
theorem pcm_roundtrip_spec_bound_fails :
    ((-1 : ℚ) ≤ 98305 / 131072 ∧ (98305 : ℚ) / 131072 ≤ 1) ∧
    decodePcmBytes (encodePcm [(98305 : ℚ) / 131072]) = [24575 / 32768] ∧
    ¬(|(24575 : ℚ) / 32768 - 98305 / 131072| ≤ 1 / 32767) := by
  have henc : encodeSample ((98305 : ℚ) / 131072) = 24575 := by
    rw [encodeSample, clampSample_eq_of_mem _ (by norm_num) (by norm_num),
      Int.floor_eq_iff]
    norm_num
  refine ⟨⟨by norm_num, by norm_num⟩, ?_, ?_⟩
  · rw [decodePcmBytes_encodePcm]
    simp only [List.map_cons, List.map_nil, henc]
    norm_num [decodeSample]
  · rw [abs_le]
    norm_num

/-! ## CallPage state and event handlers (`src/unnamed/part_001`) -/

/-- JavaScript `String.prototype.trim()` over the character list: drop
leading and trailing whitespace. -/
def trimChars (l : List Char) : List Char :=
  ((l.dropWhile (·.isWhitespace)).reverse.dropWhile (·.isWhitespace)).reverse

/-- `.trim()` as applied to the transcription accumulators in the
`turnComplete` branch of `onmessage`. -/
def jsTrim (s : String) : String := ⟨trimChars s.data⟩

/-- The mutable state of `CallPage`: the React state hooks
(`callStatus`, `transcript`, `errorMessage`) and the refs
(`streamRef`, `audioContextRef`, `outputAudioContextRef`,
`scriptProcessorRef`, `mediaStreamSourceRef`, `sessionPromiseRef`,
`inputTranscriptionRef`, `outputTranscriptionRef`, `nextStartTimeRef`
and `audioSources`, the latter two as `sched`).  `nextSourceId` names
the next freshly created buffer source node. -/
structure CallState where
  status : CallStatus
  transcript : List TranscriptMessage
  errorMessage : Option String
  stream : Option Unit
  audioContext : Option Unit
  outputAudioContext : Option Unit
  scriptProcessor : Option Unit
  mediaStreamSource : Option Unit
  sessionPromise : Option Session
  inputTranscription : String
  outputTranscription : String
  sched : SchedulerState
  nextSourceId : ℕ
deriving DecidableEq, Repr

/-- One `LiveServerMessage` as consumed by `onmessage`: optional partial
AI transcription, optional partial user transcription, the
`turnComplete` flag, an optional inbound audio fragment (represented by
its decoded duration), and the `interrupted` flag. -/
structure ServerMessage where
  outputTranscription : Option String
  inputTranscription : Option String
  turnComplete : Bool
  audioDuration : Option ℚ
  interrupted : Bool
deriving DecidableEq, Repr

/-- The `turnComplete` branch of `onmessage`: trim both accumulators,
push the user entry if the trimmed text is truthy (non-empty), then the
AI entry likewise, and clear both accumulators. -/
def flushTurn (s : CallState) : CallState :=
  let userText := jsTrim s.inputTranscription
  let aiText := jsTrim s.outputTranscription
  { s with
    transcript := s.transcript ++
      (if userText ≠ "" then [⟨Speaker.user, userText⟩] else []) ++
      (if aiText ≠ "" then [⟨Speaker.ai, aiText⟩] else []),
    inputTranscription := "",
    outputTranscription := "" }

/-- `onmessage` stage 1: append a partial AI transcription. -/
def applyOutputTranscription (m : ServerMessage) (s : CallState) : CallState :=
  match m.outputTranscription with
  | some t => { s with outputTranscription := s.outputTranscription ++ t }
  | none => s

/-- `onmessage` stage 2: append a partial user transcription. -/
def applyInputTranscription (m : ServerMessage) (s : CallState) : CallState :=
  match m.inputTranscription with
  | some t => { s with inputTranscription := s.inputTranscription ++ t }
  | none => s

/-- `onmessage` stage 3: flush on `turnComplete`. -/
def applyTurnComplete (m : ServerMessage) (s : CallState) : CallState :=
  if m.turnComplete then flushTurn s else s

/-- `onmessage` stage 4: decode and schedule an inbound audio fragment
(only when the message carries audio and the output context exists). -/
def applyAudio (now : ℚ) (m : ServerMessage) (s : CallState) : CallState :=
  match m.audioDuration, s.outputAudioContext with
  | some dur, some _ =>
      let step := schedulePlayback now dur s.nextSourceId s.sched
      { s with sched := step.1, nextSourceId := s.nextSourceId + 1 }
  | _, _ => s

/-- `onmessage` stage 5: the `interrupted` branch. -/
def applyInterrupted (m : ServerMessage) (s : CallState) : CallState :=
  if m.interrupted then { s with sched := (interrupt s.sched).1 } else s

/-- The `onmessage` callback: the five branches in source order.
`now` is the output audio context's `currentTime` when the message is
handled. -/
def handleMessage (now : ℚ) (m : ServerMessage) (s : CallState) : CallState :=
  applyInterrupted m (applyAudio now m
    (applyTurnComplete m (applyInputTranscription m
      (applyOutputTranscription m s))))

/-- `cleanup`: stop tracks, disconnect nodes, close contexts, and null
out every resource ref.  Only the ref fields change. -/
def cleanup (s : CallState) : CallState :=
  { s with
    stream := none,
    scriptProcessor := none,
    mediaStreamSource := none,
    audioContext := none,
    outputAudioContext := none,
    sessionPromise := none }

/-- `session.close()`, which may throw. -/
def closeSession (sess : Session) : Except String Unit :=
  if sess.closeFails then Except.error ("Error closing session") else Except.ok ()

/-- `endCall`: set status `ENDED`, await and close the session inside a
try/catch that only logs, then `cleanup`.  Returns the new state and the
logged close error, if any (never propagated). -/
def endCall (s : CallState) : CallState × Option String :=
  let s1 : CallState := { s with status := CallStatus.ended }
  let logged : Option String :=
    match s1.sessionPromise with
    | some sess =>
        match closeSession sess with
        | Except.error e => some e
        | Except.ok _ => none
    | none => none
  (cleanup s1, logged)

/-- The initial system message set by `startCall`. -/
def startingMessage : TranscriptMessage :=
  ⟨Speaker.system, "Starting your Korean lesson... Please allow microphone access."⟩

/-- The user-visible message of the `startCall` catch branch. -/
def micErrorMessage : String :=
  "Could not access microphone. Please check your browser permissions."

/-- `startCall`: set status `CONNECTING`, reset the transcript to the
starting system message, clear the error; then either acquire the
microphone, create both audio contexts and the session promise
(`micOk = true`), or hit the catch branch: set the microphone error
message, status `ERROR`, and run `cleanup`.  Also returns the sequence
of status values assigned, in order. -/
def startCall (micOk : Bool) (s : CallState) : CallState × List CallStatus :=
  let s1 : CallState :=
    { s with
      status := CallStatus.connecting,
      transcript := [startingMessage],
      errorMessage := none }
  if micOk then
    ({ s1 with
        stream := some (),
        audioContext := some (),
        outputAudioContext := some (),
        sessionPromise := some ⟨false⟩ },
      [CallStatus.connecting])
  else
    (cleanup { s1 with
        errorMessage := some micErrorMessage,
        status := CallStatus.error },
      [CallStatus.connecting, CallStatus.error])

/-- The system message appended by the `onopen` callback. -/
def connectedMessage : TranscriptMessage :=
  ⟨Speaker.system, "Connection successful! You can start speaking now."⟩

/-- The `onopen` callback: status `ACTIVE`, append the success message,
wire the script processor and media-stream source. -/
def onOpen (s : CallState) : CallState :=
  { s with
    status := CallStatus.active,
    transcript := s.transcript ++ [connectedMessage],
    scriptProcessor := some (),
    mediaStreamSource := some () }

/-- The `onerror` callback: set the error message, status `ERROR`, and
run `cleanup`. -/
def onError (e : String) (s : CallState) : CallState :=
  cleanup { s with
    errorMessage := some ("An error occurred: " ++ e ++ ". Please try again."),
    status := CallStatus.error }

/-- The `onclose` callback: status `ENDED`, then `cleanup`. -/
def onClose (s : CallState) : CallState :=
  cleanup { s with status := CallStatus.ended }

/-- The all-idle initial component state. -/
def initialState : CallState :=
  { status := CallStatus.idle,
    transcript := [],
    errorMessage := none,
    stream := none,
    audioContext := none,
    outputAudioContext := none,
    scriptProcessor := none,
    mediaStreamSource := none,
    sessionPromise := none,
    inputTranscription := "",
    outputTranscription := "",
    sched := ⟨0, []⟩,
    nextSourceId := 0 }

/-! ## Capture pipeline (`onaudioprocess`) -/

/-- The `onaudioprocess` handler (`CallPage.tsx` lines 141-147): encode
the full capture buffer and send it via `sessionPromiseRef.current?.then`
— when the session ref is null the optional chaining short-circuits and
the blob is neither stored nor sent.  `sent` is the log of blobs handed
to `sendRealtimeInput`. -/
def onAudioProcess (session : Option Session) (buf : List ℚ)
    (sent : List (List ℕ)) : List (List ℕ) :=
  match session with
  | some _ => sent ++ [encodePcm buf]
  | none => sent

/-- A run of the capture pipeline: each step is the session ref's value
when a buffer becomes ready, paired with that buffer.  Returns the send
log. -/
def captureRun (trace : List (Option Session × List ℚ)) : List (List ℕ) :=
  trace.foldl (fun sent step => onAudioProcess step.1 step.2 sent) []

theorem captureRun_foldl (trace : List (Option Session × List ℚ))
    (acc : List (List ℕ)) :
    trace.foldl (fun sent step => onAudioProcess step.1 step.2 sent) acc =
      acc ++ (trace.filter (fun p => p.1.isSome)).map (fun p => encodePcm p.2) := by
  induction trace generalizing acc with
  | nil => simp
  | cons p rest ih =>
      obtain ⟨sess, buf⟩ := p
      rw [List.foldl_cons]
      cases sess with
      | none =>
          rw [show onAudioProcess none buf acc = acc from rfl, ih]
          simp [List.filter_cons]
      | some v =>
          rw [show onAudioProcess (some v) buf acc = acc ++ [encodePcm buf]
            from rfl, ih]
          simp [List.filter_cons]

theorem captureRun_eq (trace : List (Option Session × List ℚ)) :
    captureRun trace =
      (trace.filter (fun p => p.1.isSome)).map (fun p => encodePcm p.2) := by
  simpa using captureRun_foldl trace []

/-! ## Message sequences -/

/-- A message carrying only transcription deltas: `u` the partial user
text, `a` the partial AI text. -/
def transcriptionMsg (u a : Option String) : ServerMessage :=
  ⟨a, u, false, none, false⟩

/-- A message carrying only `turnComplete`. -/
def turnMsg : ServerMessage := ⟨none, none, true, none, false⟩

/-- A message carrying only `interrupted`. -/
def interruptedMsg : ServerMessage := ⟨none, none, false, none, true⟩

/-- Handle a sequence of transcription-only messages. -/
def applyTranscriptions (evs : List (Option String × Option String))
    (s : CallState) : CallState :=
  evs.foldl (fun st e => handleMessage 0 (transcriptionMsg e.1 e.2) st) s

theorem handleMessage_transcriptionMsg (u a : Option String) (st : CallState) :
    (handleMessage 0 (transcriptionMsg u a) st).inputTranscription =
      st.inputTranscription ++ u.getD "" ∧
    (handleMessage 0 (transcriptionMsg u a) st).outputTranscription =
      st.outputTranscription ++ a.getD "" ∧
    (handleMessage 0 (transcriptionMsg u a) st).transcript = st.transcript := by
  cases u <;> cases a <;>
    simp [handleMessage, transcriptionMsg, applyOutputTranscription,
      applyInputTranscription, applyTurnComplete, applyAudio,
      applyInterrupted, String.append_empty]

/-- C4 (amended): over any interleaving of transcription-only messages
the accumulators collect the partial texts per speaker in order and the
transcript is untouched; handling `turnComplete` then appends the
*trimmed* user text (if non-empty after trimming) before the *trimmed*
AI text (if non-empty after trimming), appends no entry when the trimmed
text is empty, and clears both accumulators. -/
theorem turnComplete_flush_order (s : CallState)
    (evs : List (Option String × Option String)) (now : ℚ) :
    (applyTranscriptions evs s).inputTranscription =
      evs.foldl (fun acc e => acc ++ e.1.getD "") s.inputTranscription ∧
    (applyTranscriptions evs s).outputTranscription =
      evs.foldl (fun acc e => acc ++ e.2.getD "") s.outputTranscription ∧
    (applyTranscriptions evs s).transcript = s.transcript ∧
    (∀ t : CallState,
      (handleMessage now turnMsg t).transcript =
        t.transcript ++
          (if jsTrim t.inputTranscription ≠ "" then
            [⟨Speaker.user, jsTrim t.inputTranscription⟩] else []) ++
          (if jsTrim t.outputTranscription ≠ "" then
            [⟨Speaker.ai, jsTrim t.outputTranscription⟩] else []) ∧
      (handleMessage now turnMsg t).inputTranscription = "" ∧
      (handleMessage now turnMsg t).outputTranscription = "") := by
  refine ⟨?_, ?_, ?_, fun t => ⟨rfl, rfl, rfl⟩⟩ <;>
  · induction evs generalizing s with
    | nil => rfl
    | cons e rest ih =>
        obtain ⟨u, a⟩ := e
        obtain ⟨h1, h2, h3⟩ := handleMessage_transcriptionMsg u a s
        simp only [applyTranscriptions, List.foldl_cons] at ih ⊢
        rw [show (handleMessage 0 (transcriptionMsg u a) s) =
          { s with
            inputTranscription := s.inputTranscription ++ u.getD "",
            outputTranscription := s.outputTranscription ++ a.getD "" } from ?_]
        · exact ih _
        · cases u <;> cases a <;>
            simp [handleMessage, transcriptionMsg, applyOutputTranscription,
              applyInputTranscription, applyTurnComplete, applyAudio,
              applyInterrupted, String.append_empty]

/-- C4 counterexample: with a whitespace-only user accumulator (which is
non-empty), handling `turnComplete` appends no user entry — the code
trims before testing, which the claim does not account for. -/
theorem turnComplete_whitespace_dropped :
    ({ initialState with inputTranscription := " " } : CallState).inputTranscription ≠ "" ∧
    (handleMessage 0 turnMsg
      { initialState with inputTranscription := " " }).transcript = [] := by
  exact ⟨by decide, by decide⟩

/-- C5 (amended): `endCall` never throws (session-close failures are
caught and only logged), teardown is idempotent and tolerates
partially-initialized state (every field combination, including a null
session), and it releases every resource reference; but it always
leaves the status at `ended`, even when an `error` status occurred
first. -/
theorem endCall_idempotent_safe (s : CallState) (b1 b2 : Bool) :
    (endCall (endCall s).1).1 = (endCall s).1 ∧
    (endCall s).1.status = CallStatus.ended ∧
    (endCall s).1.stream = none ∧
    (endCall s).1.scriptProcessor = none ∧
    (endCall s).1.mediaStreamSource = none ∧
    (endCall s).1.audioContext = none ∧
    (endCall s).1.outputAudioContext = none ∧
    (endCall s).1.sessionPromise = none ∧
    (endCall { s with sessionPromise := none }).2 = none ∧
    (endCall { s with sessionPromise := some ⟨b1⟩ }).1 =
      (endCall { s with sessionPromise := some ⟨b2⟩ }).1 := by
  exact ⟨rfl, rfl, rfl, rfl, rfl, rfl, rfl, rfl, rfl, rfl⟩

/-- C5 counterexample: ending a call whose status is already `error`
(e.g. it failed before the session opened) leaves status `ended`, not
the first-occurring terminal status `error`. -/
theorem endCall_overwrites_error_status :
    ({ initialState with status := CallStatus.error } : CallState).status =
      CallStatus.error ∧
    (endCall { initialState with status := CallStatus.error }).1.status =
      CallStatus.ended ∧
    CallStatus.ended ≠ CallStatus.error := by
  exact ⟨rfl, rfl, by decide⟩

/-- C6: the send log is exactly the encodings of the buffers that became
ready while the session ref was non-null; a buffer ready while the
session ref was null (and whose encoding no session-present step shares)
is never queued and never sent. -/
theorem dropped_buffer_never_sent (trace : List (Option Session × List ℚ))
    (i : ℕ) (hi : i < trace.length)
    (hnone : (trace.getD i (none, [])).1 = none)
    (hunique : ∀ j, j < trace.length → (trace.getD j (none, [])).1.isSome →
      encodePcm (trace.getD j (none, [])).2 ≠
        encodePcm (trace.getD i (none, [])).2) :
    captureRun trace =
      (trace.filter (fun p => p.1.isSome)).map (fun p => encodePcm p.2) ∧
    encodePcm (trace.getD i (none, [])).2 ∉ captureRun trace := by
  refine ⟨captureRun_eq trace, ?_⟩
  rw [captureRun_eq trace]
  intro hmem
  obtain ⟨p, hp, hpe⟩ := List.mem_map.mp hmem
  have hps := List.of_mem_filter hp
  have hpt : p ∈ trace := List.mem_of_mem_filter hp
  obtain ⟨j, hj, hje⟩ := List.mem_iff_getElem.mp hpt
  have hjd : trace.getD j (none, []) = p := by
    rw [List.getD_eq_getElem _ _ hj, hje]
  exact hunique j hj (by rw [hjd]; exact hps) (by rw [hjd]; exact hpe)

/-- C6 witness: a single buffer arriving while the session ref is null
is absent from the (empty) send log. -/
theorem dropped_buffer_never_sent_witness :
    (0 < ([((none : Option Session), [(0 : ℚ)])]).length) ∧
    ((([((none : Option Session), [(0 : ℚ)])]).getD 0 (none, [])).1 = none) ∧
    encodePcm ((([((none : Option Session), [(0 : ℚ)])]).getD 0 (none, [])).2) ∉
      captureRun [((none : Option Session), [(0 : ℚ)])] := by
  have hu : ∀ j, j < ([((none : Option Session), [(0 : ℚ)])]).length →
      ((([((none : Option Session), [(0 : ℚ)])]).getD j (none, [])).1.isSome) →
      encodePcm ((([((none : Option Session), [(0 : ℚ)])]).getD j (none, [])).2) ≠
        encodePcm ((([((none : Option Session), [(0 : ℚ)])]).getD 0 (none, [])).2) := by
    intro j hj hs
    simp only [List.length_singleton, Nat.lt_one_iff] at hj
    subst hj
    simp at hs
  exact ⟨by decide, rfl,
    (dropped_buffer_never_sent [((none : Option Session), [(0 : ℚ)])] 0
      (by decide) rfl hu).2⟩

/-- C7: starting a call from `idle` with microphone acquisition failing
runs the status sequence `idle → connecting → error`, leaves only the
initial system message in the transcript, sets a user-visible message
mentioning the microphone and permissions, executes full teardown, and
performs no further transition (no automatic retry). -/
theorem startCall_mic_denied (s : CallState) (h : s.status = CallStatus.idle) :
    s.status :: (startCall false s).2 =
      [CallStatus.idle, CallStatus.connecting, CallStatus.error] ∧
    (startCall false s).1.status = CallStatus.error ∧
    (startCall false s).1.transcript = [startingMessage] ∧
    (startCall false s).1.errorMessage = some micErrorMessage ∧
    (∃ pre post, micErrorMessage = pre ++ "microphone" ++ post) ∧
    (∃ pre post, micErrorMessage = pre ++ "permissions" ++ post) ∧
    (startCall false s).1.stream = none ∧
    (startCall false s).1.audioContext = none ∧
    (startCall false s).1.outputAudioContext = none ∧
    (startCall false s).1.scriptProcessor = none ∧
    (startCall false s).1.mediaStreamSource = none ∧
    (startCall false s).1.sessionPromise = none := by
  rw [h]
  exact ⟨rfl, rfl, rfl, rfl,
    ⟨"Could not access ", ". Please check your browser permissions.", rfl⟩,
    ⟨"Could not access microphone. Please check your browser ", ".", rfl⟩,
    rfl, rfl, rfl, rfl, rfl, rfl⟩

/-- C7 witness: the scenario from the pristine initial state. -/
theorem startCall_mic_denied_witness :
    initialState.status = CallStatus.idle ∧
    initialState.status :: (startCall false initialState).2 =
      [CallStatus.idle, CallStatus.connecting, CallStatus.error] :=
  ⟨rfl, (startCall_mic_denied initialState rfl).1⟩

theorem applyTurnComplete_transcript (m : ServerMessage) (s : CallState) :
    ∃ tail, (applyTurnComplete m s).transcript = s.transcript ++ tail := by
  unfold applyTurnComplete
  split
  · refine ⟨(if jsTrim s.inputTranscription ≠ "" then
        [⟨Speaker.user, jsTrim s.inputTranscription⟩] else []) ++
      (if jsTrim s.outputTranscription ≠ "" then
        [⟨Speaker.ai, jsTrim s.outputTranscription⟩] else []), ?_⟩
    simp [flushTurn, List.append_assoc]
  · exact ⟨[], by simp⟩

theorem applyAudio_transcript (now : ℚ) (m : ServerMessage) (s : CallState) :
    (applyAudio now m s).transcript = s.transcript := by
  unfold applyAudio
  split <;> rfl

theorem applyInterrupted_transcript (m : ServerMessage) (s : CallState) :
    (applyInterrupted m s).transcript = s.transcript := by
  unfold applyInterrupted
  split <;> rfl

theorem applyOutputTranscription_transcript (m : ServerMessage) (s : CallState) :
    (applyOutputTranscription m s).transcript = s.transcript := by
  unfold applyOutputTranscription
  split <;> rfl

theorem applyInputTranscription_transcript (m : ServerMessage) (s : CallState) :
    (applyInputTranscription m s).transcript = s.transcript := by
  unfold applyInputTranscription
  split <;> rfl

/-- C8 (amended): across message handling (including turn completion and
interruption), session open, remote error, remote close and explicit
end-call, the transcript is append-only — existing entries are never
mutated or removed, and in particular all messages accumulated before a
terminal error survive the error transition.  `startCall`, however,
resets the transcript to the single starting system message (see the
counterexample). -/
theorem transcript_append_only_ops (s : CallState) (now : ℚ)
    (m : ServerMessage) (e : String) :
    (∃ tail, (handleMessage now m s).transcript = s.transcript ++ tail) ∧
    (onOpen s).transcript = s.transcript ++ [connectedMessage] ∧
    (onError e s).transcript = s.transcript ∧
    (onClose s).transcript = s.transcript ∧
    (endCall s).1.transcript = s.transcript := by
  refine ⟨?_, rfl, rfl, rfl, rfl⟩
  obtain ⟨tail, ht⟩ := applyTurnComplete_transcript m
    (applyInputTranscription m (applyOutputTranscription m s))
  refine ⟨tail, ?_⟩
  rw [handleMessage, applyInterrupted_transcript, applyAudio_transcript, ht,
    applyInputTranscription_transcript, applyOutputTranscription_transcript]

/-- C8 counterexample: a transcript entry present before `startCall` is
gone afterwards — `startCall` replaces the transcript with the starting
system message, so the sequence is not append-only across starting
calls. -/
theorem startCall_resets_transcript :
    (⟨Speaker.user, "hi"⟩ : TranscriptMessage) ∈
      ({ initialState with
          transcript := [⟨Speaker.user, "hi"⟩],
          status := CallStatus.ended } : CallState).transcript ∧
    (⟨Speaker.user, "hi"⟩ : TranscriptMessage) ∉
      (startCall true
        { initialState with
            transcript := [⟨Speaker.user, "hi"⟩],
            status := CallStatus.ended }).1.transcript := by
  exact ⟨by decide, by decide⟩

/-- C9: handling an `interrupted` signal touches only the playback
sources and cursor: both transcription accumulators and the transcript
are unchanged, and a subsequent `turnComplete` flushes exactly what it
would have flushed without the interruption — in particular the
accumulated AI text still reaches the transcript. -/
theorem interrupted_preserves_transcription (s : CallState) (now now2 : ℚ) :
    (handleMessage now interruptedMsg s).inputTranscription =
      s.inputTranscription ∧
    (handleMessage now interruptedMsg s).outputTranscription =
      s.outputTranscription ∧
    (handleMessage now interruptedMsg s).transcript = s.transcript ∧
    (handleMessage now interruptedMsg s).sched.audioSources = [] ∧
    (handleMessage now interruptedMsg s).sched.nextStartTime = 0 ∧
    (handleMessage now2 turnMsg (handleMessage now interruptedMsg s)).transcript =
      (handleMessage now2 turnMsg s).transcript ∧
    (handleMessage now2 turnMsg (handleMessage now interruptedMsg s)).inputTranscription =
      (handleMessage now2 turnMsg s).inputTranscription ∧
    (handleMessage now2 turnMsg (handleMessage now interruptedMsg s)).outputTranscription =
      (handleMessage now2 turnMsg s).outputTranscription ∧
    (handleMessage now2 turnMsg (handleMessage now interruptedMsg s)).transcript =
      s.transcript ++
        (if jsTrim s.inputTranscription ≠ "" then
          [⟨Speaker.user, jsTrim s.inputTranscription⟩] else []) ++
        (if jsTrim s.outputTranscription ≠ "" then
          [⟨Speaker.ai, jsTrim s.outputTranscription⟩] else []) := by
  exact ⟨rfl, rfl, rfl, rfl, rfl, rfl, rfl, rfl, rfl⟩

/-! ## Subscription gate (`App.tsx`, `SubscriptionPage.tsx`) -/

/-- One plan card's props in `SubscriptionPage.tsx`. -/
structure Plan where
  name : String
  price : String
  features : List String
  isPopular : Bool
deriving DecidableEq, Repr

/-- The three plans rendered by `SubscriptionPage`. -/
def plans : List Plan :=
  [⟨"Hangeul Starter", "9",
    ["5 hours of AI call time", "Basic conversation topics",
     "Standard response speed", "Email support"], false⟩,
   ⟨"Seoul Speaker", "19",
    ["20 hours of AI call time", "Expanded conversation topics",
     "Faster response speed", "Priority email support",
     "Access to new voices"], true⟩,
   ⟨"Korean Master", "49",
    ["Unlimited AI call time", "All conversation topics",
     "Instant response speed", "24/7 dedicated support",
     "Beta feature access"], false⟩]

/-- `App`'s state: the `isSubscribed` hook. -/
structure AppState where
  isSubscribed : Bool
deriving DecidableEq, Repr

/-- `handleSubscribe` in `App.tsx`: `setIsSubscribed(true)`, with no
argument identifying the chosen plan. -/
def handleSubscribe (s : AppState) : AppState := { s with isSubscribed := true }

/-- `SubscriptionPage` passes the same `onSubscribe` callback as
`onSelect` to every plan card. -/
def subscriptionPageOnSelect (onSubscribe : AppState → AppState) :
    List (AppState → AppState) :=
  plans.map (fun _ => onSubscribe)

/-- Clicking Choose Plan on card `i` in the running app. -/
def selectPlan (i : ℕ) (s : AppState) : AppState :=
  ((subscriptionPageOnSelect handleSubscribe).getD i id) s

/-- C10: all three plan cards invoke the identical `handleSubscribe`
callback (which carries no plan-identifying argument), so two runs that
differ only in the selected plan reach identical application states with
`isSubscribed = true` — all subsequent behavior, a function of that
state, coincides. -/
theorem plan_choice_noninterference (i j : Fin 3) (s : AppState) :
    plans.length = 3 ∧
    (subscriptionPageOnSelect handleSubscribe).getD i.val id = handleSubscribe ∧
    selectPlan i.val s = selectPlan j.val s ∧
    (selectPlan i.val s).isSubscribed = true := by
  refine ⟨rfl, ?_, ?_, ?_⟩
  · fin_cases i <;> rfl
  · fin_cases i <;> fin_cases j <;> rfl
  · fin_cases i <;> rfl
end KoreanTutor
